import Mathlib

/-!
Verification development for the NEO transactional object store
(`neo/pt.py`, `neo/master/service.py`, `neo/client/app.py`,
`neo/client/handlers/storage.py`).

The Python classes are shallowly embedded: object state becomes Lean
structures, mutation becomes explicit state passing, Python exceptions
become `Except`/`Option` results, and 8-byte identifiers (OIDs, TIDs,
PTIDs) become `Nat`.  External library functions that the repository does
not provide (zlib compression, checksums) are passed as parameters.
-/

set_option autoImplicit false

namespace NeoSpec

/-- Cell states of the partition table (`neo.protocol.cell_states`):
UP_TO_DATE, OUT_OF_DATE, FEEDING, DISCARDED. -/
inductive CellState where
  | upToDate
  | outOfDate
  | feeding
  | discarded
deriving DecidableEq, Repr

/-- Node states (`neo.protocol`): RUNNING, TEMPORARILY_DOWN, DOWN, BROKEN,
HIDDEN, PENDING, UNKNOWN. -/
inductive NodeState where
  | running
  | temporarilyDown
  | down
  | broken
  | hidden
  | pending
  | unknown
deriving DecidableEq, Repr

/-- A node as the partition table sees it: its identity (UUID) and its
current state (`cell.getNodeState()` reads it). -/
structure Node where
  uuid : Nat
  state : NodeState
deriving DecidableEq, Repr

/-- Embeds `neo.pt.Cell`: a pair of a node and a cell state. -/
structure Cell where
  node : Node
  state : CellState
deriving DecidableEq, Repr

/-- Embeds `neo.pt.PartitionTable`.  `count_dict` is the per-node use counter,
modelled as a total function defaulting to `0` (`count_dict.get(node, 0)`);
`id` is the PTID, `none` for the initial Python `None`. -/
structure PartitionTable where
  np : Nat
  nr : Nat
  id : Option Nat
  num_filled_rows : Nat
  partition_list : List (List Cell)
  count_dict : Node → Int

/-- Embeds `PartitionTable.__init__` / `clear`: an empty table with `np` empty
rows and no use counts. -/
def PartitionTable.blank (np nr : Nat) : PartitionTable :=
  { np := np
    nr := nr
    id := none
    num_filled_rows := 0
    partition_list := List.replicate np []
    count_dict := fun _ => 0 }

/-- The allowed-state set built at the top of `getCellList`: start from all
cell states, drop DISCARDED when `readable or writable`, then drop
OUT_OF_DATE when `readable`. -/
def allowedStates (readable writable : Bool) : List CellState :=
  let s0 := [CellState.upToDate, CellState.outOfDate, CellState.feeding,
             CellState.discarded]
  let s1 := if readable || writable
            then s0.filter (fun s => decide (s ≠ CellState.discarded))
            else s0
  if readable then s1.filter (fun s => decide (s ≠ CellState.outOfDate)) else s1

/-- Embeds `PartitionTable.getCellList(offset, readable, writable)`: the cells of
row `offset` whose state is in the allowed set. -/
def PartitionTable.getCellList (pt : PartitionTable) (offset : Nat)
    (readable writable : Bool) : List Cell :=
  (pt.partition_list.getD offset []).filter
    (fun c => decide (c.state ∈ allowedStates readable writable))

/-- Modelled from the spec: `neo.util.u64` is not under `src/`; the spec
fixes OIDs/TIDs as 8-byte big-endian integers, so `u64` is the big-endian
fold of the bytes. -/
def u64 (bytes : List Nat) : Nat :=
  bytes.foldl (fun acc b => acc * 256 + b) 0

/-- Embeds `PartitionTable._getPartitionFromIndex`: `index % self.np`. -/
def PartitionTable.getPartitionFromIndex (pt : PartitionTable) (index : Nat) :
    Nat :=
  index % pt.np

/-- Embeds `PartitionTable.getCellListForTID`. -/
def PartitionTable.getCellListForTID (pt : PartitionTable) (tid : List Nat)
    (readable writable : Bool) : List Cell :=
  pt.getCellList (pt.getPartitionFromIndex (u64 tid)) readable writable

/-- Embeds `PartitionTable.getCellListForOID`. -/
def PartitionTable.getCellListForOID (pt : PartitionTable) (oid : List Nat)
    (readable writable : Bool) : List Cell :=
  pt.getCellList (pt.getPartitionFromIndex (u64 oid)) readable writable

/-- The duplicate scan of `setCell`/`removeCell`: walk the row, remove the
first cell whose node equals `node`, and report the removed cell. -/
def removeFirstByNode (node : Node) : List Cell → List Cell × Option Cell
  | [] => ([], none)
  | c :: rest =>
    if c.node = node then (rest, some c)
    else
      let r := removeFirstByNode node rest
      (c :: r.1, r.2)

/-- Embeds `self.count_dict[node] = self.count_dict.get(node, 0) + 1`. -/
def countIncr (d : Node → Int) (n : Node) : Node → Int :=
  fun m => if m = n then d n + 1 else d m

/-- Embeds `self.count_dict[node] = self.count_dict.get(node, 0) - 1`. -/
def countDecr (d : Node → Int) (n : Node) : Node → Int :=
  fun m => if m = n then d n - 1 else d m

/-- Embeds `PartitionTable.removeCell(offset, node)`.  An out-of-range offset
raises `IndexError` before any mutation in Python, so the table is
returned unchanged. -/
def PartitionTable.removeCell (pt : PartitionTable) (offset : Nat)
    (node : Node) : PartitionTable :=
  if h : offset < pt.partition_list.length then
    let row := pt.partition_list.get ⟨offset, h⟩
    let r := removeFirstByNode node row
    match r.2 with
    | none => pt
    | some cell =>
      { pt with
        partition_list := pt.partition_list.set offset r.1
        count_dict :=
          if cell.state ≠ CellState.feeding
          then countDecr pt.count_dict node
          else pt.count_dict }
  else pt

/-- Embeds `PartitionTable.setCell(offset, node, state)`: DISCARDED delegates to
`removeCell`; BROKEN/DOWN nodes are rejected; an empty row is created
fresh, otherwise a duplicate of the same node is removed first and the new
cell appended.  The use count is incremented unless the new state is
FEEDING, and decremented for a removed non-FEEDING duplicate. -/
def PartitionTable.setCell (pt : PartitionTable) (offset : Nat) (node : Node)
    (state : CellState) : PartitionTable :=
  if state = CellState.discarded then
    pt.removeCell offset node
  else if node.state = NodeState.broken ∨ node.state = NodeState.down then
    pt
  else if h : offset < pt.partition_list.length then
    let row := pt.partition_list.get ⟨offset, h⟩
    if row = [] then
      { pt with
        partition_list := pt.partition_list.set offset [⟨node, state⟩]
        count_dict :=
          if state ≠ CellState.feeding
          then countIncr pt.count_dict node
          else pt.count_dict
        num_filled_rows := pt.num_filled_rows + 1 }
    else
      let r := removeFirstByNode node row
      let d1 : Node → Int :=
        match r.2 with
        | some cell =>
          if cell.state ≠ CellState.feeding
          then countDecr pt.count_dict node
          else pt.count_dict
        | none => pt.count_dict
      { pt with
        partition_list := pt.partition_list.set offset (r.1 ++ [⟨node, state⟩])
        count_dict :=
          if state ≠ CellState.feeding then countIncr d1 node else d1 }
  else pt

/-- Python 2 comparison `ptid <= self.id` where the initial `id` is `None`:
`None` compares strictly below every value, so the test is false then. -/
def ptidLeCur (ptid : Nat) : Option Nat → Bool
  | none => false
  | some cur => decide (ptid ≤ cur)

/-- Embeds `PartitionTable.update(ptid, cell_list, nm)`: ignored when
`ptid <= self.id`; otherwise sets `id := ptid` and applies `setCell` for
each change.  The node-manager lookup `nm.getNodeByUUID` is modelled by
letting the cell list carry the resolved `Node` directly (the source
asserts the node is known). -/
def PartitionTable.update (pt : PartitionTable) (ptid : Nat)
    (cell_list : List (Nat × Node × CellState)) : PartitionTable :=
  if ptidLeCur ptid pt.id then pt
  else
    cell_list.foldl (fun t c => t.setCell c.1 c.2.1 c.2.2)
      { pt with id := some ptid }

/-! ### Association lists

Python dictionaries are modelled as association lists with at most the
usual first-match semantics. -/

/-- Embeds `d[k]` / `d.get(k)`: the first binding of `k`. -/
def alookup {β : Type} (l : List (Nat × β)) (k : Nat) : Option β :=
  (l.find? (fun p => decide (p.1 = k))).map Prod.snd

/-- Embeds `d[k] = v`: replace the first binding of `k`, or append one. -/
def aset {β : Type} (l : List (Nat × β)) (k : Nat) (v : β) : List (Nat × β) :=
  match l with
  | [] => [(k, v)]
  | p :: rest => if p.1 = k then (k, v) :: rest else p :: aset rest k v

/-- Embeds `del d[k]` / `d.pop(k)`: drop the first binding of `k`. -/
def aremove {β : Type} (l : List (Nat × β)) (k : Nat) : List (Nat × β) :=
  match l with
  | [] => []
  | p :: rest => if p.1 = k then rest else p :: aremove rest k

/-- Option-valued map over a list, `none` as soon as one element maps to
`none` (the effect of a Python exception escaping a loop). -/
def omap {α β : Type} (f : α → Option β) : List α → Option (List β)
  | [] => some []
  | a :: l =>
    match f a with
    | none => none
    | some b =>
      match omap f l with
      | none => none
      | some bl => some (b :: bl)

/-! ## Client application (`neo/client/app.py`) -/

/-- The compression decision of `Application.store`: when compression is
configured, keep the compressed bytes unless `len(compressed_data) >
len(data)`, with flag 1; otherwise send the original with flag 0.  zlib's
`compress` is external to the repository and passed as a parameter. -/
def storePayload (compressFn : List Nat → List Nat) (compressEnabled : Bool)
    (data : List Nat) : Nat × List Nat :=
  if compressEnabled then
    let compressed_data := compressFn data
    if compressed_data.length > data.length then (0, data)
    else (1, compressed_data)
  else (0, data)

/-- The fields of the `AskStoreObject` packet built by `Application.store`. -/
structure StorePacket where
  oid : Nat
  serial : Nat
  compression : Nat
  checksum : Nat
  payload : List Nat
  tid : Nat
deriving DecidableEq, Repr

/-- Embeds `Application.store`, payload-assembly part: a `None` data is stored as
the empty string, the compression flag and on-wire bytes come from
`storePayload`, and `checksum = makeChecksum(compressed_data)` is computed
over the on-wire bytes (`makeChecksum` is external, passed as a
parameter). -/
def storePacketOf (compressFn : List Nat → List Nat)
    (makeChecksum : List Nat → Nat) (compressEnabled : Bool)
    (oid serial : Nat) (data : Option (List Nat)) (tid : Nat) : StorePacket :=
  let bytes := data.getD []
  let p := storePayload compressFn compressEnabled bytes
  { oid := oid, serial := serial, compression := p.1
    checksum := makeChecksum p.2, payload := p.2, tid := tid }

/-- One storage cell's outcome as `Application._load` observes it, per
iteration of the candidate loop. -/
inductive CellReply where
  /-- Case `getConnForCell` returned `None`, or `ConnectionClosed`: `continue`. -/
  | connFail
  /-- The storage reported OID-not-found: `asked_object = -1`, `break`. -/
  | oidNotFound
  /-- An `AnswerObject` reply `(noid, start_serial, end_serial,
  compression, checksum, data)`. -/
  | answer (noid : Nat) (start : Nat) (end_ : Option Nat) (compression : Bool)
      (checksum : Nat) (data : List Nat)
deriving DecidableEq, Repr

/-- The value of `local_var.asked_object` when the candidate loop of
`_load` ends. -/
inductive LoopResult where
  /-- Still `0`: every candidate failed by connection error. -/
  | noAnswer
  /-- Value `-1`: not found, or every answer was rejected. -/
  | notFound
  /-- A verified answer. -/
  | got (start : Nat) (end_ : Option Nat) (compression : Bool)
      (data : List Nat)
deriving DecidableEq, Repr

/-- The candidate loop of `Application._load` (lines 452-486): try each
cell in order, `continue` on connection failure, `break` with `-1` on
OID-not-found, reject (set `-1`, `continue`) a wrong OID or a checksum
mismatch, `break` with the answer otherwise.  `sawBad` tracks whether
`asked_object` currently holds `-1`. -/
def loadLoop (ck : List Nat → Nat) (oid : Nat) (sawBad : Bool) :
    List CellReply → LoopResult
  | [] => if sawBad then .notFound else .noAnswer
  | .connFail :: rest => loadLoop ck oid sawBad rest
  | .oidNotFound :: _ => .notFound
  | .answer noid start end_ comp checksum data :: rest =>
    if noid ≠ oid then loadLoop ck oid true rest
    else if checksum ≠ ck data then loadLoop ck oid true rest
    else .got start end_ comp data

/-- Error `NEOStorageNotFoundError` raised by `_load` (both the
connection-failure and the not-found exits raise it). -/
inductive LoadError where
  | notFound
deriving DecidableEq, Repr

/-- Embeds `Application._load` after the loop: raise when nothing was obtained,
else decompress when flagged and map the empty payload to `None`.
`makeChecksum` and zlib `decompress` are external, passed as
parameters. -/
def loadFrom (ck : List Nat → Nat) (decompress : List Nat → List Nat)
    (oid : Nat) (replies : List CellReply) :
    Except LoadError (Option (List Nat) × Nat × Option Nat) :=
  match loadLoop ck oid false replies with
  | .noAnswer => .error .notFound
  | .notFound => .error .notFound
  | .got start end_ comp data =>
    let d := if comp then decompress data else data
    .ok (if d = [] then none else some d, start, end_)

/-- A `continue`-and-retry outcome of one candidate in `_load`:
a connection failure, a wrong OID, or a checksum mismatch. -/
def isRetryReply (ck : List Nat → Nat) (oid : Nat) : CellReply → Bool
  | .connFail => true
  | .oidNotFound => false
  | .answer noid _ _ _ checksum data =>
    decide (noid ≠ oid) || decide (checksum ≠ ck data)

/-! ## Client storage-answer handler (`neo/client/handlers/storage.py`) -/

/-- The per-transaction context fields `answerStoreObject` reads and
writes.  Dictionaries are association lists, sets are `Finset Nat`;
`data_dict` values are `some bytes` for `str` payloads and `none` for the
non-`str` markers. -/
structure TxnContext where
  object_stored_counter_dict : List (Nat × List (Nat × Finset Nat))
  resolved_conflict_serial_dict : List (Nat × Finset Nat)
  conflict_serial_dict : List (Nat × Finset Nat)
  data_dict : List (Nat × Option (List Nat))
  cache_dict : List (Nat × Option (List Nat))
  data_size : Int
  cache_size : Int
deriving DecidableEq

/-- Failure modes of `answerStoreObject`: the explicit `NEOStorageError`
for a success/conflict disagreement, or a Python `KeyError` /
`AssertionError` on protocol states the handler does not expect. -/
inductive StoreAnswerError where
  | storageError
  | crash
deriving DecidableEq, Repr

/-- Embeds `StorageAnswersHandler.answerStoreObject(conn, conflict, oid, serial)`.
`conflict` is `some c` when the storage reports a conflicting serial `c`
(`ZERO_TID` is modelled as `0`), `none` otherwise.  `cacheMaxSize` is
`self.app._cache._max_size`. -/
def answerStoreObject (cacheMaxSize : Nat) (ctx : TxnContext) (connUuid : Nat)
    (conflict : Option Nat) (oid serial : Nat) :
    Except StoreAnswerError TxnContext :=
  match alookup ctx.object_stored_counter_dict oid with
  | none => .error .crash
  | some counter_oid =>
    match conflict with
    | some c =>
      if c ∈ (alookup ctx.resolved_conflict_serial_dict oid).getD ∅ then
        -- already resolved for this OID: ignore
        .ok ctx
      else if 0 ≠ c ∧ (alookup counter_oid c).isSome then
        -- a storage accepted the object at this serial: fatal
        .error .storageError
      else
        let cs := (alookup ctx.conflict_serial_dict oid).getD ∅
        .ok { ctx with conflict_serial_dict :=
                         aset ctx.conflict_serial_dict oid (insert c cs) }
    | none =>
      match alookup counter_oid serial with
      | none =>
        -- store to first storage node
        match alookup ctx.data_dict oid with
        | none =>
          -- KeyError: multiple undo; `assert cache_dict[oid] is None`
          match alookup ctx.cache_dict oid with
          | none => .error .crash
          | some (some _) => .error .crash
          | some none =>
            let oscd := aset ctx.object_stored_counter_dict oid
              (aset counter_oid serial {connUuid})
            .ok { ctx with object_stored_counter_dict := oscd }
        | some data =>
          let szc : TxnContext × Option (List Nat) :=
            match data with
            | some bytes =>
              let size : Int := bytes.length
              let newsize := size + ctx.cache_size
              if newsize < (cacheMaxSize : Int) then
                ({ ctx with data_size := ctx.data_size - size,
                            cache_size := newsize }, some bytes)
              else
                ({ ctx with data_size := ctx.data_size - size }, none)
            | none => (ctx, none)
          .ok { szc.1 with
            data_dict := aremove szc.1.data_dict oid,
            cache_dict := aset szc.1.cache_dict oid szc.2,
            object_stored_counter_dict :=
              aset szc.1.object_stored_counter_dict oid
                (aset counter_oid serial {connUuid}) }
      | some uuid_set =>
        -- replica: `assert oid not in data_dict`
        if (alookup ctx.data_dict oid).isSome then .error .crash
        else
          let oscd := aset ctx.object_stored_counter_dict oid
            (aset counter_oid serial (insert connUuid uuid_set))
          .ok { ctx with object_stored_counter_dict := oscd }

/-! ## Client conflict-resolution loop (`Application._handleConflicts`) -/

/-- The thread-local transaction fields `_handleConflicts` reads and
writes: `oid -> pending data`, `oid -> (base serial, version)`,
`oid -> conflict serials`, `oid -> resolved conflict serials`, and the
transaction's TID.  Versions are numbered (the source passes them through
opaquely). -/
structure LocalVar where
  tid : Nat
  data_dict : List (Nat × List Nat)
  object_serial_dict : List (Nat × (Nat × Nat))
  conflict_serial_dict : List (Nat × Finset Nat)
  resolved_conflict_serial_dict : List (Nat × Finset Nat)
deriving DecidableEq

/-- Error `ConflictError(oid=oid, serials=(tid, serial), data=data)`. -/
structure ConflictErr where
  oid : Nat
  serials : Nat × Nat
  data : List Nat
deriving DecidableEq, Repr

/-- A re-issued `self.store(oid, conflict_serial, new_data, version, txn)`
recorded as an event; the network fan-out of `store` is modelled by
`storePacketOf` separately. -/
structure StoreCall where
  oid : Nat
  serial : Nat
  data : List Nat
  version : Nat
deriving DecidableEq, Repr

/-- Exceptions escaping `_handleConflicts`: `ConflictError`, or a Python
`ValueError`/`KeyError` on states the loop does not expect. -/
inductive HCError where
  | conflictError (e : ConflictErr)
  | crash
deriving DecidableEq, Repr

/-- One iteration of the `_handleConflicts` loop for an OID with pending
conflict serials.  Returns the updated context, the re-issued store
calls, and the OIDs appended to `result`.  The nested `self.store` call
is reflected on the context (`data_dict[oid] = data`,
`object_serial_dict[oid] = (serial, version)`) and recorded as a
`StoreCall`; the `del data_dict[oid]` just before a raise is not
observable since the exception aborts the loop. -/
def handleOneConflict (resolver : Nat → Nat → Nat → List Nat → Option (List Nat))
    (lv : LocalVar) (oid : Nat) (conflict_serial_set : Finset Nat) :
    Except HCError (LocalVar × List StoreCall × List Nat) :=
  -- `resolved_serial_set = resolved_conflict_serial_dict.setdefault(oid, set())`
  let resolved_serial_set :=
    (alookup lv.resolved_conflict_serial_dict oid).getD ∅
  let rd0 := aset lv.resolved_conflict_serial_dict oid resolved_serial_set
  let lv := { lv with resolved_conflict_serial_dict := rd0 }
  if conflict_serial_set = ∅ then .error .crash  -- `max(())` raises
  else
    let conflict_serial := conflict_serial_set.sup id
    if resolved_serial_set ≠ ∅ ∧
        conflict_serial ≤ resolved_serial_set.sup id then
      -- a later serial has already been resolved: skip
      .ok ({ lv with
              resolved_conflict_serial_dict :=
                aset lv.resolved_conflict_serial_dict oid
                  (resolved_serial_set ∪ conflict_serial_set),
              conflict_serial_dict := aremove lv.conflict_serial_dict oid },
           [], [])
    else
      match alookup lv.object_serial_dict oid, alookup lv.data_dict oid with
      | some sv, some data =>
        if conflict_serial ≤ lv.tid then
          match resolver oid conflict_serial sv.1 data with
          | some new_data =>
            .ok ({ lv with
                    resolved_conflict_serial_dict :=
                      aset lv.resolved_conflict_serial_dict oid
                        (resolved_serial_set ∪ conflict_serial_set),
                    conflict_serial_dict :=
                      aremove lv.conflict_serial_dict oid,
                    data_dict := aset lv.data_dict oid new_data,
                    object_serial_dict :=
                      aset lv.object_serial_dict oid (conflict_serial, sv.2) },
                 [⟨oid, conflict_serial, new_data, sv.2⟩], [oid])
          | none =>
            .error (.conflictError ⟨oid, (lv.tid, sv.1), data⟩)
        else
          .error (.conflictError ⟨oid, (lv.tid, sv.1), data⟩)
      | _, _ => .error .crash

/-- The loop of `_handleConflicts` over the snapshot
`conflict_serial_dict.items()`, threading the context and accumulating
store calls and the `result` list. -/
def handleConflictItems
    (resolver : Nat → Nat → Nat → List Nat → Option (List Nat)) :
    List (Nat × Finset Nat) → LocalVar → List StoreCall → List Nat →
    Except HCError (LocalVar × List StoreCall × List Nat)
  | [], lv, calls, result => .ok (lv, calls, result)
  | (oid, css) :: rest, lv, calls, result =>
    match handleOneConflict resolver lv oid css with
    | .error e => .error e
    | .ok (lv', calls', res') =>
      handleConflictItems resolver rest lv' (calls ++ calls') (result ++ res')

/-- Embeds `Application._handleConflicts(tryToResolveConflict)`. -/
def handleConflicts
    (resolver : Nat → Nat → Nat → List Nat → Option (List Nat))
    (lv : LocalVar) :
    Except HCError (LocalVar × List StoreCall × List Nat) :=
  handleConflictItems resolver lv.conflict_serial_dict lv [] []

/-! ## Master service handler (`neo/master/service.py`) -/

/-- Node variants (`neo.protocol` node types). -/
inductive NodeType where
  | master
  | storage
  | client
  | admin
deriving DecidableEq, Repr

/-- A connection as the master's event manager lists it: an identity
(for the `c is t.getConnection()` test) and the UUID bound to it, if
any. -/
structure MConn where
  cid : Nat
  uuid : Option Nat
deriving DecidableEq, Repr

/-- Embeds `neo.master.service.FinishingTransaction`: initiating connection,
message id to answer, OID list, expected UUID set and the UUIDs that have
reported locked.  Fields start as `None` and are filled by
`handleFinishTransaction`. -/
structure FinishingTxn where
  conn : Nat
  msg_id : Option Nat
  oid_list : Option (List Nat)
  uuid_set : Option (Finset Nat)
  locked_uuid_set : Finset Nat
deriving DecidableEq

/-- Embeds `FinishingTransaction.__init__(conn)`. -/
def FinishingTxn.mk0 (conn : Nat) : FinishingTxn :=
  { conn := conn, msg_id := none, oid_list := none, uuid_set := none
    locked_uuid_set := ∅ }

/-- Embeds `FinishingTransaction.addLockedUUID`: adds the UUID only when it is
expected.  `uuid in self._uuid_set` raises `TypeError` when the set was
never assigned (`None`), modelled as `none`. -/
def FinishingTxn.addLockedUUID (t : FinishingTxn) (uuid : Nat) :
    Option FinishingTxn :=
  match t.uuid_set with
  | none => none
  | some s =>
    if uuid ∈ s then
      some { t with locked_uuid_set := insert uuid t.locked_uuid_set }
    else some t

/-- Embeds `FinishingTransaction.allLocked`:
`self._uuid_set == self._locked_uuid_set` (`None == set()` is `False`). -/
def FinishingTxn.allLocked (t : FinishingTxn) : Bool :=
  match t.uuid_set with
  | none => false
  | some s => decide (s = t.locked_uuid_set)

/-- The master-side state read by `handleFinishTransaction` and
`handleNotifyInformationLocked`: last TID, the node manager as a
UUID-to-node-type map, the event manager's connection list, the partition
table, and `finishing_transaction_dict`. -/
structure MasterApp where
  ltid : Nat
  nm : List (Nat × NodeType)
  conns : List MConn
  pt : PartitionTable
  num_partitions : Nat
  finishing_transaction_dict : List (Nat × FinishingTxn)

/-- The packets these two handlers queue on connections, keyed by the
target connection's identity. -/
inductive MPacket where
  /-- Packet `notifyTransactionFinished(t.getMessageId(), tid)` to the
  initiator (`AnswerTransactionFinished` on the wire). -/
  | transactionFinished (cid : Nat) (msg_id : Option Nat) (tid : Nat)
  /-- Packet `invalidateObjects(t.getOIDList(), tid)` to every other client. -/
  | invalidateObjects (cid : Nat) (oid_list : Option (List Nat)) (tid : Nat)
  /-- Packet `unlockInformation(tid)` to the expected storages. -/
  | unlockInformation (cid : Nat) (tid : Nat)
  /-- Packet `lockInformation(tid)` from `handleFinishTransaction`. -/
  | lockInformation (cid : Nat) (tid : Nat)
deriving DecidableEq, Repr

/-- Modelled from the spec: the master `Application.getPartition` is not
under `src/`; the spec fixes `partition(id) = u64(id) mod P`, identifiers
being already held as numbers here. -/
def MasterApp.getPartition (app : MasterApp) (id : Nat) : Nat :=
  id % app.num_partitions

/-- The fan-out body of `handleNotifyInformationLocked` for one
connection: the initiating client gets the finish answer, other clients
an invalidation, expected storages the unlock.  `none` models the
`AttributeError` when a connection's UUID is unknown to the node
manager. -/
def fanOutConn (nm : List (Nat × NodeType)) (t : FinishingTxn) (tid : Nat)
    (c : MConn) : Option (List MPacket) :=
  match c.uuid with
  | none => some []
  | some u =>
    match alookup nm u with
    | none => none
    | some NodeType.client =>
      if c.cid = t.conn then some [.transactionFinished c.cid t.msg_id tid]
      else some [.invalidateObjects c.cid t.oid_list tid]
    | some NodeType.storage =>
      match t.uuid_set with
      | none => none  -- `uuid in t.getUUIDSet()` on `None` raises
      | some s => if u ∈ s then some [.unlockInformation c.cid tid] else some []
    | some _ => some []

/-- Embeds `ServiceEventHandler.handleNotifyInformationLocked(conn, packet, tid)`.
Guard failures (`handleUnexpectedPacket`, the caught `KeyError`) leave the
state unchanged; `none` models an uncaught Python exception. -/
def handleNotifyInformationLocked (app : MasterApp) (connUuid : Option Nat)
    (tid : Nat) : Option (MasterApp × List MPacket) :=
  match connUuid with
  | none => some (app, [])
  | some uuid =>
    match alookup app.nm uuid with
    | none => none
    | some nt =>
      if nt ≠ NodeType.storage then some (app, [])
      else if app.ltid < tid then some (app, [])
      else
        match alookup app.finishing_transaction_dict tid with
        | none => some (app, [])
        | some t =>
          match t.addLockedUUID uuid with
          | none => none
          | some t' =>
            if t'.allLocked then
              match omap (fanOutConn app.nm t' tid) app.conns with
              | none => none
              | some pss =>
                let ftd := aremove app.finishing_transaction_dict tid
                some ({ app with finishing_transaction_dict := ftd },
                      pss.flatten)
            else
              let ftd := aset app.finishing_transaction_dict tid t'
              some ({ app with finishing_transaction_dict := ftd }, [])

/-- A replay of `AnswerInformationLocked(tid)` reports: each element is
the UUID bound to the reporting storage's connection; packets queued by
each handler call are accumulated in order. -/
def runNotifyLocked (app : MasterApp) (tid : Nat) :
    List Nat → Option (MasterApp × List MPacket)
  | [] => some (app, [])
  | r :: rest =>
    match handleNotifyInformationLocked app (some r) tid with
    | none => none
    | some (app', ps) =>
      match runNotifyLocked app' tid rest with
      | none => none
      | some (app'', ps') => some (app'', ps ++ ps')

/-- The UUID set computed by `handleFinishTransaction`: the union over
the partitions of `tid` and of each OID of the UUIDs of *all* cells
(`app.pt.getCellList(part)` without flags). -/
def MasterApp.finishUUIDSet (app : MasterApp) (tid : Nat)
    (oid_list : List Nat) : Finset Nat :=
  (insert (app.getPartition tid) (oid_list.map app.getPartition).toFinset).biUnion
    (fun part =>
      ((app.pt.getCellList part false false).map (fun c => c.node.uuid)).toFinset)

/-- The same union restricted to writable cells
(`getCellList(part, writable=True)`), as the spec words it. -/
def MasterApp.writableUUIDSet (app : MasterApp) (tid : Nat)
    (oid_list : List Nat) : Finset Nat :=
  (insert (app.getPartition tid) (oid_list.map app.getPartition).toFinset).biUnion
    (fun part =>
      ((app.pt.getCellList part false true).map (fun c => c.node.uuid)).toFinset)

/-- Embeds `ServiceEventHandler.handleFinishTransaction(conn, packet, oid_list,
tid)`: after the guards (`uuid` bound, client node, `tid <= ltid`),
computes the UUID set, queues `lockInformation(tid)` on every connection
whose UUID lies in it, and fills in the transaction record when one
exists (`KeyError` is caught and only logged). -/
def handleFinishTransaction (app : MasterApp) (connUuid : Option Nat)
    (packetId : Nat) (oid_list : List Nat) (tid : Nat) :
    Option (MasterApp × List MPacket) :=
  match connUuid with
  | none => some (app, [])
  | some uuid =>
    match alookup app.nm uuid with
    | none => none
    | some nt =>
      if nt ≠ NodeType.client then some (app, [])
      else if app.ltid < tid then some (app, [])
      else
        let uuid_set := app.finishUUIDSet tid oid_list
        let packets := app.conns.filterMap (fun c =>
          match c.uuid with
          | some u =>
            if u ∈ uuid_set then some (MPacket.lockInformation c.cid tid)
            else none
          | none => none)
        match alookup app.finishing_transaction_dict tid with
        | none => some (app, packets)
        | some t =>
          let ftd := aset app.finishing_transaction_dict tid
            { t with oid_list := some oid_list, uuid_set := some uuid_set
                     msg_id := some packetId }
          some ({ app with finishing_transaction_dict := ftd }, packets)

/-! ## Operation sequences over the partition table (use-count invariant) -/

/-- A mutation of the partition table through its public mutators. -/
inductive PTOp where
  | set (offset : Nat) (node : Node) (state : CellState)
  | remove (offset : Nat) (node : Node)
deriving DecidableEq, Repr

/-- Apply one mutation. -/
def applyOp (pt : PartitionTable) : PTOp → PartitionTable
  | .set o n s => pt.setCell o n s
  | .remove o n => pt.removeCell o n

/-- Apply a sequence of mutations in order. -/
def applyOps (pt : PartitionTable) (ops : List PTOp) : PartitionTable :=
  ops.foldl applyOp pt

/-- The predicate counted by the use counter: a cell of node `n` whose
state is not FEEDING. -/
def pcount (n : Node) : Cell → Bool :=
  fun c => decide (c.node = n ∧ c.state ≠ CellState.feeding)

/-- The number of cells referring to `n` across all partitions, feeding
cells excluded. -/
def cellCountNode (pls : List (List Cell)) (n : Node) : Nat :=
  (pls.map (fun row => row.countP (pcount n))).sum

deriving instance DecidableEq for Except

/-! ## Concrete inputs for counterexamples and witnesses -/

/-- A stand-in compression function witnessing that zlib may return a
same-length but different payload: map each byte to its successor. -/
def cexCompress : List Nat → List Nat :=
  fun l => l.map (fun x => x + 1)

/-- A stand-in compression function that always expands its input by one
byte, exercising the skip-compression branch. -/
def cexExpand : List Nat → List Nat :=
  fun l => 0 :: l

/-- A conflict-resolution context in which OID 1 has the pending conflict
serial 4 while serial 5 was already resolved for it: the skip branch of
`_handleConflicts` fires. -/
def cexLV : LocalVar :=
  { tid := 10
    data_dict := [(1, [7])]
    object_serial_dict := [(1, (2, 0))]
    conflict_serial_dict := [(1, {4})]
    resolved_conflict_serial_dict := [(1, {5})] }

/-- A resolver that always returns merged bytes. -/
def cexResolver : Nat → Nat → Nat → List Nat → Option (List Nat) :=
  fun _ _ _ data => some (data ++ [1])

/-- The context after the skip branch: the pending serial 4 is merged into
the resolved set and the pending entry dropped; nothing else changes. -/
def cexLVafter : LocalVar :=
  { tid := 10
    data_dict := [(1, [7])]
    object_serial_dict := [(1, (2, 0))]
    conflict_serial_dict := []
    resolved_conflict_serial_dict := [(1, {5, 4})] }

/-- A resolution context whose only pending conflict (OID 1, serial 5,
base serial 2) the resolver can fix. -/
def wLV : LocalVar :=
  { tid := 10
    data_dict := [(1, [7])]
    object_serial_dict := [(1, (2, 3))]
    conflict_serial_dict := [(1, {5})]
    resolved_conflict_serial_dict := [] }

/-- A transaction context where storage 42 accepted OID 1 at serial 6. -/
def wCtx : TxnContext :=
  { object_stored_counter_dict := [(1, [(6, {42})])]
    resolved_conflict_serial_dict := []
    conflict_serial_dict := []
    data_dict := []
    cache_dict := []
    data_size := 0
    cache_size := 0 }

/-- A one-partition table with one up-to-date cell on node 1 and one
out-of-date cell on node 2. -/
def wPT : PartitionTable :=
  { np := 1
    nr := 1
    id := some 3
    num_filled_rows := 1
    partition_list := [[⟨⟨1, NodeState.running⟩, CellState.upToDate⟩,
                        ⟨⟨2, NodeState.running⟩, CellState.outOfDate⟩]]
    count_dict := fun n => if n.uuid = 1 ∨ n.uuid = 2 then 1 else 0 }

/-- A master with one storage (UUID 10), the initiating client (UUID 20,
connection 1), another client (UUID 21, connection 2), the storage's
connection (3), and a finishing transaction at TID 5 expecting UUID 10. -/
def wApp : MasterApp :=
  { ltid := 5
    nm := [(10, NodeType.storage), (20, NodeType.client),
           (21, NodeType.client)]
    conns := [⟨1, some 20⟩, ⟨2, some 21⟩, ⟨3, some 10⟩]
    pt := wPT
    num_partitions := 1
    finishing_transaction_dict :=
      [(5, { conn := 1, msg_id := some 7, oid_list := some [9]
             uuid_set := some {10}, locked_uuid_set := ∅ })] }

/-- The finishing record of `wApp` at TID 5. -/
def wTxn : FinishingTxn :=
  { conn := 1, msg_id := some 7, oid_list := some [9]
    uuid_set := some {10}, locked_uuid_set := ∅ }

/-- A master like `wApp` but whose record at TID 5 is still fresh
(`AskNewTID` only), for exercising `handleFinishTransaction`. -/
def wApp6 : MasterApp :=
  { ltid := 5
    nm := [(1, NodeType.storage), (2, NodeType.storage),
           (20, NodeType.client)]
    conns := [⟨1, some 20⟩, ⟨3, some 1⟩]
    pt := wPT
    num_partitions := 1
    finishing_transaction_dict := [(5, FinishingTxn.mk0 1)] }

/-! ## Shared lemmas -/

theorem alookup_aset_self {β : Type} (l : List (Nat × β)) (k : Nat) (v : β) :
    alookup (aset l k v) k = some v := by
  induction l with
  | nil => simp [aset, alookup, List.find?]
  | cons p rest ih =>
    by_cases hp : p.1 = k
    · simp [aset, hp, alookup, List.find?]
    · simp only [aset, if_neg hp]
      simpa [alookup, List.find?, hp] using ih

theorem aset_aset {β : Type} (l : List (Nat × β)) (k : Nat) (v w : β) :
    aset (aset l k v) k w = aset l k w := by
  induction l with
  | nil => simp [aset]
  | cons p rest ih =>
    by_cases hp : p.1 = k
    · simp [aset, hp]
    · simp [aset, hp, ih]

theorem aremove_single {β : Type} (k : Nat) (v : β) :
    aremove [(k, v)] k = [] := by
  simp [aremove]

/-! ## Claim theorems -/

/-- C2: for every 8-byte identifier (OID or TID), the partition used for
cell lookup is `u64(id) mod P`; for P = 3 the OIDs 1, 2, 3 map to
partitions 1, 2, 0. -/
theorem claim_C2_partition_mod (pt : PartitionTable) (id : List Nat)
    (r w : Bool) (_hlen : id.length = 8) :
    pt.getCellListForTID id r w = pt.getCellList (u64 id % pt.np) r w ∧
    pt.getCellListForOID id r w = pt.getCellList (u64 id % pt.np) r w ∧
    (PartitionTable.blank 3 0).getPartitionFromIndex
      (u64 [0, 0, 0, 0, 0, 0, 0, 1]) = 1 ∧
    (PartitionTable.blank 3 0).getPartitionFromIndex
      (u64 [0, 0, 0, 0, 0, 0, 0, 2]) = 2 ∧
    (PartitionTable.blank 3 0).getPartitionFromIndex
      (u64 [0, 0, 0, 0, 0, 0, 0, 3]) = 0 :=
  ⟨rfl, rfl, by decide, by decide, by decide⟩

/-- Witness for C2 at a concrete table and identifier. -/
theorem claim_C2_witness :
    ([0, 0, 0, 0, 0, 0, 0, 1] : List Nat).length = 8 ∧
    (PartitionTable.blank 3 0).getCellListForTID [0, 0, 0, 0, 0, 0, 0, 1]
        true false =
      (PartitionTable.blank 3 0).getCellList
        (u64 [0, 0, 0, 0, 0, 0, 0, 1] % 3) true false :=
  ⟨by decide,
   (claim_C2_partition_mod (PartitionTable.blank 3 0) [0, 0, 0, 0, 0, 0, 0, 1]
     true false (by decide)).1⟩

/-- C5: for a valid partition index, the readable query returns exactly
the cells whose state is neither DISCARDED nor OUT_OF_DATE, the writable
query exactly those not DISCARDED, and with neither flag all cells are
returned. -/
theorem claim_C5_getCellList (pt : PartitionTable) (off : Nat)
    (h : off < pt.partition_list.length) (cell : Cell) (w : Bool) :
    (cell ∈ pt.getCellList off true w ↔
      cell ∈ pt.partition_list.get ⟨off, h⟩ ∧
        cell.state ≠ CellState.discarded ∧
        cell.state ≠ CellState.outOfDate) ∧
    (cell ∈ pt.getCellList off false true ↔
      cell ∈ pt.partition_list.get ⟨off, h⟩ ∧
        cell.state ≠ CellState.discarded) ∧
    pt.getCellList off false false = pt.partition_list.get ⟨off, h⟩ := by
  have hrow : pt.partition_list.getD off [] = pt.partition_list.get ⟨off, h⟩ := by
    rw [List.getD_eq_get?, List.get?_eq_get h]
    rfl
  obtain ⟨cnode, cstate⟩ := cell
  refine ⟨?_, ?_, ?_⟩
  · simp only [PartitionTable.getCellList, hrow, List.mem_filter,
      decide_eq_true_eq]
    cases w <;> cases cstate <;> simp [allowedStates]
  · simp only [PartitionTable.getCellList, hrow, List.mem_filter,
      decide_eq_true_eq]
    cases cstate <;> simp [allowedStates]
  · simp only [PartitionTable.getCellList, hrow]
    apply List.filter_eq_self.mpr
    intro c _
    obtain ⟨n, st⟩ := c
    cases st <;> simp [allowedStates]

/-- Witness for C5 at a concrete table and cell. -/
theorem claim_C5_witness :
    (0 : Nat) < wPT.partition_list.length ∧
    ((⟨⟨2, NodeState.running⟩, CellState.outOfDate⟩ : Cell) ∈
        wPT.getCellList 0 true false ↔
      (⟨⟨2, NodeState.running⟩, CellState.outOfDate⟩ : Cell) ∈
          wPT.partition_list.get ⟨0, by decide⟩ ∧
        CellState.outOfDate ≠ CellState.discarded ∧
        CellState.outOfDate ≠ CellState.outOfDate) :=
  ⟨by decide,
   (claim_C5_getCellList wPT 0 (by decide)
     ⟨⟨2, NodeState.running⟩, CellState.outOfDate⟩ false).1⟩

/-- C8: an incremental update whose PTID is not greater than the current
one leaves the table entirely unchanged, and any update that mutates the
table must carry a greater PTID; a greater PTID does set the version. -/
theorem claim_C8_update_stale (pt : PartitionTable) (ptid : Nat)
    (cells : List (Nat × Node × CellState))
    (h : ptidLeCur ptid pt.id = true) :
    pt.update ptid cells = pt ∧
    (∀ (ptid' : Nat) (cells' : List (Nat × Node × CellState)),
       pt.update ptid' cells' ≠ pt → ptidLeCur ptid' pt.id = false) := by
  constructor
  · simp [PartitionTable.update, h]
  · intro ptid' cells' hne
    cases hb : ptidLeCur ptid' pt.id with
    | false => rfl
    | true => exact absurd (by simp [PartitionTable.update, hb]) hne

/-- Witness for C8 at a concrete table. -/
theorem claim_C8_witness :
    ptidLeCur 2 wPT.id = true ∧ wPT.update 2 [] = wPT :=
  ⟨by decide, (claim_C8_update_stale wPT 2 [] (by decide)).1⟩

/-- C9 counterexample: at equal compressed and original sizes the code
still sends the compressed bytes with flag 1, while the claim demands
compression be skipped whenever the compressed size is greater than *or
equal to* the original size.  `cexCompress` keeps the length of `[0]`
while changing the bytes. -/
theorem claim_C9_cex :
    storePayload cexCompress true [0] = (1, [1]) ∧
    ¬ (cexCompress [0]).length < ([0] : List Nat).length :=
  ⟨rfl, by decide⟩

/-- C9 (amended): with compression enabled the data is sent compressed
(flag 1) exactly when the compressed size is less than *or equal to* the
original size; when it is strictly greater, compression is skipped and
the original bytes are sent with flag 0; the checksum is always computed
over the bytes actually sent. -/
theorem claim_C9_compression (f : List Nat → List Nat)
    (ck : List Nat → Nat) (data : List Nat) (oid serial tid : Nat) :
    ((storePayload f true data).1 = 1 ↔ (f data).length ≤ data.length) ∧
    ((f data).length > data.length → storePayload f true data = (0, data)) ∧
    (storePacketOf f ck true oid serial (some data) tid).checksum =
      ck (storePacketOf f ck true oid serial (some data) tid).payload := by
  refine ⟨?_, ?_, rfl⟩
  · by_cases hlen : (f data).length > data.length
    · simp only [storePayload, if_pos rfl, if_pos hlen]
      constructor
      · intro h; exact absurd h (by norm_num)
      · intro h; omega
    · simp only [storePayload, if_pos rfl, if_neg hlen]
      exact ⟨fun _ => by omega, fun _ => rfl⟩
  · intro hlen
    simp [storePayload, hlen]

/-- Witness for C9 at concrete compression functions. -/
theorem claim_C9_witness :
    (cexExpand [5]).length > ([5] : List Nat).length ∧
    storePayload cexExpand true [5] = (0, [5]) :=
  ⟨by decide,
   (claim_C9_compression cexExpand (fun l => l.length) [5] 1 2 3).2.1
     (by decide)⟩

/-- C4: when some storage has been recorded as accepting an OID at serial
`s` and a later `AnswerStoreObject` reports a non-zero conflict at that
same serial `s`, not already resolved, the handler raises the fatal
`NEOStorageError` instead of recording a pending conflict. -/
theorem claim_C4_conflict_after_success (cacheMax : Nat) (ctx : TxnContext)
    (u oid serial s : Nat) (counter_oid : List (Nat × Finset Nat))
    (us : Finset Nat)
    (h1 : alookup ctx.object_stored_counter_dict oid = some counter_oid)
    (h2 : alookup counter_oid s = some us)
    (h3 : s ∉ (alookup ctx.resolved_conflict_serial_dict oid).getD ∅)
    (h4 : s ≠ 0) :
    answerStoreObject cacheMax ctx u (some s) oid serial =
      .error .storageError := by
  simp only [answerStoreObject, h1]
  rw [if_neg h3, if_pos ⟨Ne.symm h4, by simp [h2]⟩]

/-- Witness for C4 at a concrete transaction context. -/
theorem claim_C4_witness :
    alookup wCtx.object_stored_counter_dict 1 = some [(6, {42})] ∧
    answerStoreObject 100 wCtx 43 (some 6) 1 2 = .error .storageError :=
  ⟨by decide,
   claim_C4_conflict_after_success 100 wCtx 43 1 2 6 [(6, {42})] {42}
     (by decide) (by decide) (by decide) (by decide)⟩

theorem loadLoop_skips (ck : List Nat → Nat) (oid : Nat) :
    ∀ (bads : List CellReply), (∀ b ∈ bads, isRetryReply ck oid b = true) →
    ∀ (sb : Bool) (rest : List CellReply),
    ∃ sb', loadLoop ck oid sb (bads ++ rest) = loadLoop ck oid sb' rest := by
  intro bads
  induction bads with
  | nil => exact fun _ sb rest => ⟨sb, rfl⟩
  | cons b bs ih =>
    intro hall sb rest
    have hb : isRetryReply ck oid b = true := hall b (List.mem_cons_self b bs)
    have hbs : ∀ x ∈ bs, isRetryReply ck oid x = true :=
      fun x hx => hall x (List.mem_cons_of_mem b hx)
    cases b with
    | connFail =>
      simpa [loadLoop] using ih hbs sb rest
    | oidNotFound => simp [isRetryReply] at hb
    | answer noid st e cp cksum d =>
      simp only [isRetryReply, Bool.or_eq_true, decide_eq_true_eq] at hb
      by_cases hno : noid ≠ oid
      · simpa [loadLoop, hno] using ih hbs true rest
      · have hck : cksum ≠ ck d := hb.resolve_left (by simpa using hno)
        simpa [loadLoop, hno, hck] using ih hbs true rest

/-- C7: during a load, an answer with a wrong OID or a checksum mismatch
sets `asked_object = -1` and the next readable cell is tried; when a later
replica answers with the right OID and a matching checksum after any
number of retryable failures, the load succeeds with that replica's
data. -/
theorem claim_C7_load_retry (ck : List Nat → Nat)
    (decompress : List Nat → List Nat) (oid : Nat)
    (bads rest : List CellReply) (start : Nat) (end_ : Option Nat)
    (comp : Bool) (data : List Nat)
    (hbads : ∀ b ∈ bads, isRetryReply ck oid b = true) :
    (∀ (noid st : Nat) (e : Option Nat) (cp : Bool) (cksum : Nat)
       (d : List Nat) (sb : Bool) (rest' : List CellReply),
       noid ≠ oid ∨ cksum ≠ ck d →
       loadLoop ck oid sb (.answer noid st e cp cksum d :: rest') =
         loadLoop ck oid true rest') ∧
    loadFrom ck decompress oid
        (bads ++ .answer oid start end_ comp (ck data) data :: rest) =
      .ok (if (if comp then decompress data else data) = [] then none
           else some (if comp then decompress data else data), start, end_) := by
  constructor
  · intro noid st e cp cksum d sb rest' hbad
    by_cases hno : noid ≠ oid
    · simp [loadLoop, hno]
    · have hck : cksum ≠ ck d := hbad.resolve_left hno
      simp [loadLoop, hno, hck]
  · obtain ⟨sb', hskip⟩ :=
      loadLoop_skips ck oid bads hbads false
        (.answer oid start end_ comp (ck data) data :: rest)
    simp [loadFrom, hskip, loadLoop]

/-- Witness for C7: a wrong-OID reply from the first replica, a good
reply from the second. -/
theorem claim_C7_witness :
    (∀ b ∈ ([CellReply.answer 2 0 none false 0 [1]] : List CellReply),
       isRetryReply (fun l => l.length) 1 b = true) ∧
    loadFrom (fun l => l.length) (fun l => l) 1
        ([CellReply.answer 2 0 none false 0 [1]] ++
          CellReply.answer 1 4 (some 9) false 2 [8, 8] :: []) =
      .ok (some [8, 8], 4, some 9) :=
  ⟨by decide,
   (claim_C7_load_retry (fun l => l.length) (fun l => l) 1
     [CellReply.answer 2 0 none false 0 [1]] [] 4 (some 9) false [8, 8]
     (by decide)).2⟩

/-- C3 counterexample: in `cexLV`, OID 1 has the pending conflict serial
4 with `c = 4 ≤ tid = 10`, and the resolver returns new bytes, yet the
loop neither re-issues a store nor records the OID nor raises: it only
merges the serial into the already-resolved set (the skip branch for a
previously resolved later serial).  This refutes the claim's dichotomy. -/
theorem claim_C3_cex :
    ({4} : Finset Nat).sup id ≤ cexLV.tid ∧
    cexResolver 1 4 2 [7] = some [7, 1] ∧
    handleConflicts cexResolver cexLV = .ok (cexLVafter, [], []) :=
  ⟨by decide, rfl, by decide⟩

/-- C3 (amended): for an OID with pending conflict serials and
`c = max(conflict_serials)`, *if no strictly-later-or-equal serial has
already been resolved for that OID*: when `c ≤ tid` and the resolver
returns new bytes the serials move to the resolved set, `store(oid, c,
new_data, version)` is re-issued and the OID recorded as resolved;
otherwise (`c > tid` or resolver returns nothing) `ConflictError(oid,
(tid, base_serial), data)` is raised.  When a serial `≥ c` was already
resolved, the pending serials are merely merged into the resolved set and
the OID is skipped. -/
theorem claim_C3_resolution
    (resolver : Nat → Nat → Nat → List Nat → Option (List Nat))
    (lv : LocalVar) (oid serial version : Nat) (css : Finset Nat)
    (data : List Nat)
    (hcd : lv.conflict_serial_dict = [(oid, css)])
    (hne : css ≠ ∅)
    (hos : alookup lv.object_serial_dict oid = some (serial, version))
    (hdd : alookup lv.data_dict oid = some data) :
    ((alookup lv.resolved_conflict_serial_dict oid).getD ∅ ≠ ∅ →
     css.sup id ≤ ((alookup lv.resolved_conflict_serial_dict oid).getD ∅).sup id →
     handleConflicts resolver lv =
       .ok ({ lv with
               resolved_conflict_serial_dict :=
                 aset lv.resolved_conflict_serial_dict oid
                   (((alookup lv.resolved_conflict_serial_dict oid).getD ∅) ∪ css)
               conflict_serial_dict := [] }, [], [])) ∧
    (¬ ((alookup lv.resolved_conflict_serial_dict oid).getD ∅ ≠ ∅ ∧
        css.sup id ≤ ((alookup lv.resolved_conflict_serial_dict oid).getD ∅).sup id) →
     css.sup id ≤ lv.tid →
     ∀ nd, resolver oid (css.sup id) serial data = some nd →
     handleConflicts resolver lv =
       .ok ({ lv with
               resolved_conflict_serial_dict :=
                 aset lv.resolved_conflict_serial_dict oid
                   (((alookup lv.resolved_conflict_serial_dict oid).getD ∅) ∪ css)
               conflict_serial_dict := []
               data_dict := aset lv.data_dict oid nd
               object_serial_dict :=
                 aset lv.object_serial_dict oid (css.sup id, version) },
            [⟨oid, css.sup id, nd, version⟩], [oid])) ∧
    (¬ ((alookup lv.resolved_conflict_serial_dict oid).getD ∅ ≠ ∅ ∧
        css.sup id ≤ ((alookup lv.resolved_conflict_serial_dict oid).getD ∅).sup id) →
     (lv.tid < css.sup id ∨ resolver oid (css.sup id) serial data = none) →
     handleConflicts resolver lv =
       .error (.conflictError ⟨oid, (lv.tid, serial), data⟩)) := by
  have hrm : aremove lv.conflict_serial_dict oid = [] := by
    rw [hcd]; exact aremove_single oid css
  refine ⟨?_, ?_, ?_⟩
  · intro hres hle
    simp only [handleConflicts, hcd, handleConflictItems, handleOneConflict,
      if_neg hne, aset_aset]
    rw [if_pos ⟨hres, hle⟩]
    simp [aremove]
  · intro hskip hle nd hnd
    simp only [handleConflicts, hcd, handleConflictItems, handleOneConflict,
      if_neg hne, aset_aset]
    rw [if_neg hskip]
    simp only [hos, hdd]
    rw [if_pos hle]
    simp only [hnd]
    simp [aremove]
  · intro hskip hfail
    simp only [handleConflicts, hcd, handleConflictItems, handleOneConflict,
      if_neg hne, aset_aset]
    rw [if_neg hskip]
    simp only [hos, hdd]
    rcases hfail with hgt | hnone
    · rw [if_neg (by omega)]
    · by_cases hle : css.sup id ≤ lv.tid
      · rw [if_pos hle]
        simp only [hnone]
      · rw [if_neg hle]

/-- Witness for C3 (amended) in the resolve branch at a concrete context. -/
theorem claim_C3_witness :
    handleConflicts cexResolver wLV =
      .ok ({ tid := 10, data_dict := [(1, [7, 1])],
             object_serial_dict := [(1, (5, 3))],
             conflict_serial_dict := [],
             resolved_conflict_serial_dict := [(1, {5})] },
           [⟨1, 5, [7, 1], 3⟩], [1]) := by
  have h := (claim_C3_resolution cexResolver wLV 1 2 3 {5} [7] rfl (by decide)
    rfl rfl).2.1 (by decide) (by decide) [7, 1] rfl
  exact h.trans (by decide)

theorem removeFirstByNode_none (node : Node) (row : List Cell)
    (h : (removeFirstByNode node row).2 = none) :
    (removeFirstByNode node row).1 = row := by
  induction row with
  | nil => rfl
  | cons c rest ih =>
    by_cases hc : c.node = node
    · simp [removeFirstByNode, hc] at h
    · have hrest : (removeFirstByNode node rest).2 = none := by
        simpa [removeFirstByNode, hc] using h
      simp [removeFirstByNode, hc, ih hrest]

theorem removeFirstByNode_some (node : Node) (p : Cell → Bool) :
    ∀ (row : List Cell) (cell : Cell),
    (removeFirstByNode node row).2 = some cell →
    cell.node = node ∧
    row.countP p = ((removeFirstByNode node row).1).countP p +
      (if p cell then 1 else 0) := by
  intro row
  induction row with
  | nil => intro cell h; simp [removeFirstByNode] at h
  | cons c rest ih =>
    intro cell h
    by_cases hc : c.node = node
    · have hcell : c = cell := by
        simpa [removeFirstByNode, hc] using h
      subst hcell
      refine ⟨hc, ?_⟩
      simp [removeFirstByNode, hc, List.countP_cons]
    · have hrest : (removeFirstByNode node rest).2 = some cell := by
        simpa [removeFirstByNode, hc] using h
      obtain ⟨h1, h2⟩ := ih cell hrest
      refine ⟨h1, ?_⟩
      simp only [removeFirstByNode, if_neg hc, List.countP_cons]
      omega

theorem map_sum_set (f : List Cell → Nat) :
    ∀ (pls : List (List Cell)) (o : Nat) (row' : List Cell)
      (h : o < pls.length),
    ((pls.set o row').map f).sum + f (pls.get ⟨o, h⟩) =
      (pls.map f).sum + f row' := by
  intro pls
  induction pls with
  | nil => intro o row' h; simp at h
  | cons hd tl ih =>
    intro o row' h
    cases o with
    | zero => simp [List.set]; omega
    | succ o' =>
      have h' : o' < tl.length := by simpa using h
      have := ih o' row' h'
      simp only [List.set, List.map_cons, List.sum_cons, List.get]
      omega

theorem pcount_iff (n : Node) (c : Cell) :
    pcount n c = true ↔ c.node = n ∧ c.state ≠ CellState.feeding := by
  simp [pcount]

theorem removeCell_counts (pt : PartitionTable) (o : Nat) (nd : Node)
    (hinv : ∀ n, pt.count_dict n = (cellCountNode pt.partition_list n : Int)) :
    ∀ n, (pt.removeCell o nd).count_dict n =
      (cellCountNode (pt.removeCell o nd).partition_list n : Int) := by
  intro n
  unfold PartitionTable.removeCell
  by_cases h : o < pt.partition_list.length
  swap
  · rw [dif_neg h]; exact hinv n
  rw [dif_pos h]
  rcases hr : (removeFirstByNode nd (pt.partition_list.get ⟨o, h⟩)).2 with _ | cell
  · simp only [hr]
    exact hinv n
  · simp only [hr]
    obtain ⟨hcn, hcount⟩ :=
      removeFirstByNode_some nd (pcount n) (pt.partition_list.get ⟨o, h⟩) cell hr
    have hsum := map_sum_set (fun row => row.countP (pcount n))
      pt.partition_list o (removeFirstByNode nd (pt.partition_list.get ⟨o, h⟩)).1 h
    have hbase := hinv n
    simp only [cellCountNode] at hbase hsum ⊢
    simp only [List.get_eq_getElem] at hbase hsum hcount ⊢
    by_cases hf : cell.state = CellState.feeding
    · have hpc : pcount n cell = false := by
        simp only [pcount, decide_eq_false_iff_not]
        rintro ⟨-, hne⟩
        exact hne hf
      rw [if_neg (by simp [hf])]
      simp only [hpc] at hcount
      simp at hcount
      omega
    · rw [if_pos (by simp [hf])]
      by_cases hn : n = nd
      · subst hn
        have hpc : pcount n cell = true := by
          simp only [pcount, decide_eq_true_eq]
          exact ⟨hcn, hf⟩
        simp only [hpc] at hcount
        simp at hcount
        have hcd : countDecr pt.count_dict n n = pt.count_dict n - 1 := by
          simp [countDecr]
        rw [hcd]
        omega
      · have hpc : pcount n cell = false := by
          simp only [pcount, decide_eq_false_iff_not]
          rintro ⟨hcn', -⟩
          exact hn (hcn'.symm.trans hcn)
        simp only [hpc] at hcount
        simp at hcount
        simp only [countDecr, if_neg hn]
        omega

theorem setCell_counts (pt : PartitionTable) (o : Nat) (nd : Node)
    (st : CellState)
    (hinv : ∀ n, pt.count_dict n = (cellCountNode pt.partition_list n : Int)) :
    ∀ n, (pt.setCell o nd st).count_dict n =
      (cellCountNode (pt.setCell o nd st).partition_list n : Int) := by
  intro n
  unfold PartitionTable.setCell
  by_cases hd : st = CellState.discarded
  · rw [if_pos hd]
    exact removeCell_counts pt o nd hinv n
  rw [if_neg hd]
  by_cases hb : nd.state = NodeState.broken ∨ nd.state = NodeState.down
  · rw [if_pos hb]
    exact hinv n
  rw [if_neg hb]
  by_cases h : o < pt.partition_list.length
  swap
  · rw [dif_neg h]
    exact hinv n
  rw [dif_pos h]
  have hbase := hinv n
  by_cases hrow : pt.partition_list.get ⟨o, h⟩ = []
  · rw [if_pos hrow]
    have hsum := map_sum_set (fun row => row.countP (pcount n))
      pt.partition_list o [⟨nd, st⟩] h
    simp only [cellCountNode] at hbase ⊢
    simp only [List.get_eq_getElem] at hbase hsum hrow ⊢
    rw [hrow] at hsum
    simp only [List.countP_nil, Nat.add_zero] at hsum
    by_cases hn : n = nd
    · subst hn
      by_cases hf : st = CellState.feeding
      · have hcnt : List.countP (pcount n) [(⟨n, st⟩ : Cell)] = 0 := by
          simp [List.countP_cons, pcount, hf]
        rw [hcnt] at hsum
        rw [if_neg (by simp [hf])]
        omega
      · have hcnt : List.countP (pcount n) [(⟨n, st⟩ : Cell)] = 1 := by
          simp [List.countP_cons, pcount, hf]
        rw [hcnt] at hsum
        rw [if_pos (by simp [hf])]
        have hci : countIncr pt.count_dict n n = pt.count_dict n + 1 := by
          simp [countIncr]
        rw [hci]
        omega
    · have hpc : pcount n ⟨nd, st⟩ = false := by
        simp only [pcount, decide_eq_false_iff_not]
        rintro ⟨hcn', -⟩
        exact hn hcn'.symm
      have hcnt : List.countP (pcount n) [(⟨nd, st⟩ : Cell)] = 0 := by
        simp [List.countP_cons, hpc]
      rw [hcnt] at hsum
      by_cases hf : st = CellState.feeding
      · rw [if_neg (by simp [hf])]
        omega
      · rw [if_pos (by simp [hf])]
        have hci : countIncr pt.count_dict nd n = pt.count_dict n := by
          simp [countIncr, hn]
        rw [hci]
        omega
  · rw [if_neg hrow]
    have hsum := map_sum_set (fun row => row.countP (pcount n))
      pt.partition_list o
      ((removeFirstByNode nd (pt.partition_list.get ⟨o, h⟩)).1 ++ [⟨nd, st⟩]) h
    rw [List.countP_append] at hsum
    rcases hr : (removeFirstByNode nd (pt.partition_list.get ⟨o, h⟩)).2
      with _ | cell
    · have hr1 := removeFirstByNode_none nd (pt.partition_list.get ⟨o, h⟩) hr
      simp only [hr]
      simp only [cellCountNode] at hbase ⊢
      simp only [List.get_eq_getElem] at hbase hsum hr1 ⊢
      rw [hr1] at hsum ⊢
      by_cases hn : n = nd
      · subst hn
        by_cases hf : st = CellState.feeding
        · have hcnt : List.countP (pcount n) [(⟨n, st⟩ : Cell)] = 0 := by
            simp [List.countP_cons, pcount, hf]
          rw [hcnt] at hsum
          rw [if_neg (by simp [hf])]
          omega
        · have hcnt : List.countP (pcount n) [(⟨n, st⟩ : Cell)] = 1 := by
            simp [List.countP_cons, pcount, hf]
          rw [hcnt] at hsum
          rw [if_pos (by simp [hf])]
          have hci : countIncr pt.count_dict n n = pt.count_dict n + 1 := by
            simp [countIncr]
          rw [hci]
          omega
      · have hpc : pcount n ⟨nd, st⟩ = false := by
          simp only [pcount, decide_eq_false_iff_not]
          rintro ⟨hcn', -⟩
          exact hn hcn'.symm
        have hcnt : List.countP (pcount n) [(⟨nd, st⟩ : Cell)] = 0 := by
          simp [List.countP_cons, hpc]
        rw [hcnt] at hsum
        by_cases hf : st = CellState.feeding
        · rw [if_neg (by simp [hf])]
          omega
        · rw [if_pos (by simp [hf])]
          have hci : countIncr pt.count_dict nd n = pt.count_dict n := by
            simp [countIncr, hn]
          rw [hci]
          omega
    · obtain ⟨hcn, hcount⟩ := removeFirstByNode_some nd (pcount n)
        (pt.partition_list.get ⟨o, h⟩) cell hr
      simp only [hr]
      simp only [cellCountNode] at hbase ⊢
      simp only [List.get_eq_getElem] at hbase hsum hcount ⊢
      by_cases hn : n = nd
      · subst hn
        by_cases hcf : cell.state = CellState.feeding
        · have hpc : pcount n cell = false := by
            simp only [pcount, decide_eq_false_iff_not]
            rintro ⟨-, hne⟩
            exact hne hcf
          rw [hpc] at hcount
          simp at hcount
          by_cases hf : st = CellState.feeding
          · have hcnt : List.countP (pcount n) [(⟨n, st⟩ : Cell)] = 0 := by
              simp [List.countP_cons, pcount, hf]
            rw [hcnt] at hsum
            have hval : (if st ≠ CellState.feeding then
                countIncr (if cell.state ≠ CellState.feeding
                  then countDecr pt.count_dict n else pt.count_dict) n
                else (if cell.state ≠ CellState.feeding
                  then countDecr pt.count_dict n else pt.count_dict)) n =
                pt.count_dict n := by
              simp [hf, hcf]
            rw [hval]
            omega
          · have hcnt : List.countP (pcount n) [(⟨n, st⟩ : Cell)] = 1 := by
              simp [List.countP_cons, pcount, hf]
            rw [hcnt] at hsum
            have hval : (if st ≠ CellState.feeding then
                countIncr (if cell.state ≠ CellState.feeding
                  then countDecr pt.count_dict n else pt.count_dict) n
                else (if cell.state ≠ CellState.feeding
                  then countDecr pt.count_dict n else pt.count_dict)) n =
                pt.count_dict n + 1 := by
              simp [hf, hcf, countIncr]
            rw [hval]
            omega
        · have hpc : pcount n cell = true := by
            simp only [pcount, decide_eq_true_eq]
            exact ⟨hcn, hcf⟩
          rw [hpc] at hcount
          simp at hcount
          by_cases hf : st = CellState.feeding
          · have hcnt : List.countP (pcount n) [(⟨n, st⟩ : Cell)] = 0 := by
              simp [List.countP_cons, pcount, hf]
            rw [hcnt] at hsum
            have hval : (if st ≠ CellState.feeding then
                countIncr (if cell.state ≠ CellState.feeding
                  then countDecr pt.count_dict n else pt.count_dict) n
                else (if cell.state ≠ CellState.feeding
                  then countDecr pt.count_dict n else pt.count_dict)) n =
                pt.count_dict n - 1 := by
              simp [hf, hcf, countDecr]
            rw [hval]
            omega
          · have hcnt : List.countP (pcount n) [(⟨n, st⟩ : Cell)] = 1 := by
              simp [List.countP_cons, pcount, hf]
            rw [hcnt] at hsum
            have hval : (if st ≠ CellState.feeding then
                countIncr (if cell.state ≠ CellState.feeding
                  then countDecr pt.count_dict n else pt.count_dict) n
                else (if cell.state ≠ CellState.feeding
                  then countDecr pt.count_dict n else pt.count_dict)) n =
                pt.count_dict n - 1 + 1 := by
              simp [hf, hcf, countIncr, countDecr]
            rw [hval]
            omega
      · have hpc : pcount n cell = false := by
          simp only [pcount, decide_eq_false_iff_not]
          rintro ⟨hcn', -⟩
          exact hn (hcn'.symm.trans hcn)
        rw [hpc] at hcount
        simp at hcount
        have hpcn : pcount n ⟨nd, st⟩ = false := by
          simp only [pcount, decide_eq_false_iff_not]
          rintro ⟨hcn', -⟩
          exact hn hcn'.symm
        have hcnt : List.countP (pcount n) [(⟨nd, st⟩ : Cell)] = 0 := by
          simp [List.countP_cons, hpcn]
        rw [hcnt] at hsum
        have hval : (if st ≠ CellState.feeding then
            countIncr (if cell.state ≠ CellState.feeding
              then countDecr pt.count_dict nd else pt.count_dict) nd
            else (if cell.state ≠ CellState.feeding
              then countDecr pt.count_dict nd else pt.count_dict)) n =
            pt.count_dict n := by
          by_cases hf : st = CellState.feeding <;>
            by_cases hcf : cell.state = CellState.feeding <;>
              simp [hf, hcf, countIncr, countDecr, hn]
        rw [hval]
        omega

/-- C10: starting from an empty table, after any sequence of `setCell` and
`removeCell` operations, every node's recorded use count equals the number
of cells referring to it across all partitions whose cell state is not
FEEDING. -/
theorem claim_C10_use_counts (np nr : Nat) (ops : List PTOp) (n : Node) :
    (applyOps (PartitionTable.blank np nr) ops).count_dict n =
      (cellCountNode
        (applyOps (PartitionTable.blank np nr) ops).partition_list n : Int) := by
  have hgen : ∀ (l : List PTOp) (pt : PartitionTable),
      (∀ m, pt.count_dict m = (cellCountNode pt.partition_list m : Int)) →
      ∀ m, (applyOps pt l).count_dict m =
        (cellCountNode (applyOps pt l).partition_list m : Int) := by
    intro l
    induction l with
    | nil => exact fun pt hpt m => hpt m
    | cons op rest ih =>
      intro pt hpt m
      have hstep : ∀ m', (applyOp pt op).count_dict m' =
          (cellCountNode (applyOp pt op).partition_list m' : Int) := by
        cases op with
        | set o nd st => exact setCell_counts pt o nd st hpt
        | remove o nd => exact removeCell_counts pt o nd hpt
      exact ih (applyOp pt op) hstep m
  have hblank : ∀ m, (PartitionTable.blank np nr).count_dict m =
      (cellCountNode (PartitionTable.blank np nr).partition_list m : Int) := by
    intro m
    simp [PartitionTable.blank, cellCountNode, List.map_replicate]
  exact hgen ops (PartitionTable.blank np nr) hblank n

theorem getCellList_no_discarded (pt : PartitionTable)
    (hnd : ∀ row ∈ pt.partition_list, ∀ c ∈ row,
        c.state ≠ CellState.discarded) (part : Nat) :
    pt.getCellList part false false = pt.getCellList part false true := by
  unfold PartitionTable.getCellList
  apply List.filter_congr
  intro c hc
  have hcd : c.state ≠ CellState.discarded := by
    by_cases hp : part < pt.partition_list.length
    · have hrow : pt.partition_list.getD part [] =
          pt.partition_list.get ⟨part, hp⟩ := by
        rw [List.getD_eq_get?, List.get?_eq_get hp]
        rfl
      rw [hrow] at hc
      exact hnd _ (pt.partition_list.get_mem part hp) c hc
    · have : pt.partition_list.getD part [] = [] :=
        List.getD_eq_default _ _ (Nat.le_of_not_lt hp)
      rw [this] at hc
      simp at hc
  cases hst : c.state <;> simp [allowedStates, hst] <;>
    exact absurd hst hcd

theorem finishUUIDSet_eq_writable (app : MasterApp)
    (hnd : ∀ row ∈ app.pt.partition_list, ∀ c ∈ row,
        c.state ≠ CellState.discarded) (tid : Nat) (oid_list : List Nat) :
    app.finishUUIDSet tid oid_list = app.writableUUIDSet tid oid_list := by
  unfold MasterApp.finishUUIDSet MasterApp.writableUUIDSet
  apply Finset.biUnion_congr rfl
  intro part _
  rw [getCellList_no_discarded app.pt hnd part]

/-- C6: for an accepted `AskFinishTransaction(tid, oid_list)` (client
connection, `tid <= ltid`, record present), the recorded expected UUID
set is exactly the union of the writable-cell UUIDs over the partitions
of `tid` and of each OID, and `LockInformation(tid)` is queued exactly on
the connections whose UUID belongs to that set.  The hypothesis that no
cell is DISCARDED holds for every reachable table, since `setCell`
removes discarded cells on apply. -/
theorem claim_C6_finish_lock (app : MasterApp) (u packetId : Nat)
    (oid_list : List Nat) (tid : Nat) (t : FinishingTxn)
    (hnm : alookup app.nm u = some NodeType.client)
    (htid : tid ≤ app.ltid)
    (hft : alookup app.finishing_transaction_dict tid = some t)
    (hnd : ∀ row ∈ app.pt.partition_list, ∀ c ∈ row,
        c.state ≠ CellState.discarded) :
    app.finishUUIDSet tid oid_list = app.writableUUIDSet tid oid_list ∧
    ∃ app' packets,
      handleFinishTransaction app (some u) packetId oid_list tid =
        some (app', packets) ∧
      alookup app'.finishing_transaction_dict tid =
        some { t with oid_list := some oid_list,
                      uuid_set := some (app.writableUUIDSet tid oid_list),
                      msg_id := some packetId } ∧
      (∀ c ∈ app.conns, ∀ v, c.uuid = some v →
         v ∈ app.writableUUIDSet tid oid_list →
         MPacket.lockInformation c.cid tid ∈ packets) ∧
      (∀ p ∈ packets, ∃ c, c ∈ app.conns ∧ ∃ v, c.uuid = some v ∧
         v ∈ app.writableUUIDSet tid oid_list ∧
         p = MPacket.lockInformation c.cid tid) := by
  have heq := finishUUIDSet_eq_writable app hnd tid oid_list
  have hlt : ¬ (app.ltid < tid) := not_lt.mpr htid
  refine ⟨heq, ?_⟩
  simp only [handleFinishTransaction, hnm]
  rw [if_neg (show ¬ (NodeType.client ≠ NodeType.client) by simp),
    if_neg hlt, hft]
  refine ⟨_, _, rfl, ?_, ?_, ?_⟩
  · rw [alookup_aset_self, heq]
  · intro c hc v hv hmem
    rw [← heq] at hmem
    refine List.mem_filterMap.mpr ⟨c, hc, ?_⟩
    rw [hv]
    simp only [if_pos hmem]
  · intro p hp
    obtain ⟨c, hc, hfc⟩ := List.mem_filterMap.mp hp
    rcases hcu : c.uuid with _ | v
    · rw [hcu] at hfc
      simp at hfc
    · rw [hcu] at hfc
      simp at hfc
      obtain ⟨hmem, hpe⟩ := hfc
      exact ⟨c, hc, v, hcu, heq ▸ hmem, hpe.symm⟩

/-- Witness for C6 at a concrete master state. -/
theorem claim_C6_witness :
    wApp6.finishUUIDSet 5 [9] = wApp6.writableUUIDSet 5 [9] :=
  (claim_C6_finish_lock wApp6 20 11 [9] 5 (FinishingTxn.mk0 1)
    (by decide) (by decide) (by decide) (by decide)).1

theorem omap_congr {α β : Type} (f g : α → Option β) :
    ∀ (l : List α), (∀ a ∈ l, f a = g a) → omap f l = omap g l := by
  intro l
  induction l with
  | nil => intro _; rfl
  | cons a rest ih =>
    intro h
    simp only [omap, h a (List.mem_cons_self a rest),
      ih fun x hx => h x (List.mem_cons_of_mem a hx)]

theorem omap_isSome {α β : Type} (f : α → Option β) :
    ∀ (l : List α), (∀ a ∈ l, (f a).isSome) → ∃ res, omap f l = some res := by
  intro l
  induction l with
  | nil => exact fun _ => ⟨[], rfl⟩
  | cons a rest ih =>
    intro h
    obtain ⟨b, hb⟩ := Option.isSome_iff_exists.mp (h a (List.mem_cons_self a rest))
    obtain ⟨res, hres⟩ := ih fun x hx => h x (List.mem_cons_of_mem a hx)
    exact ⟨b :: res, by simp only [omap, hb, hres]⟩

theorem omap_mem_flatten {α β : Type} (f : α → Option (List β)) :
    ∀ (l : List α) (res : List (List β)), omap f l = some res →
    ∀ a ∈ l, ∀ bl, f a = some bl → ∀ b ∈ bl, b ∈ res.flatten := by
  intro l
  induction l with
  | nil => intro res _ a ha; simp at ha
  | cons x rest ih =>
    intro res hres a ha bl hbl b hb
    rcases hfx : f x with _ | bx
    · rw [omap, hfx] at hres
      simp at hres
    · rw [omap, hfx] at hres
      rcases hrest : omap f rest with _ | res'
      · rw [hrest] at hres
        simp at hres
      · rw [hrest] at hres
        obtain rfl : bx :: res' = res := by
          simpa using hres
        rcases List.mem_cons.mp ha with rfl | ha'
        · have : b ∈ bx := by
            rw [hfx] at hbl
            exact (Option.some_inj.mp hbl) ▸ hb
          simp [List.flatten, this]
        · have := ih res' hrest a ha' bl hbl b hb
          simp [List.flatten, this]

theorem fanOutConn_locked (nm : List (Nat × NodeType)) (t : FinishingTxn)
    (L : Finset Nat) (tid : Nat) (c : MConn) :
    fanOutConn nm { t with locked_uuid_set := L } tid c =
      fanOutConn nm t tid c := rfl

theorem fanOutConn_isSome (nm : List (Nat × NodeType)) (t : FinishingTxn)
    (S : Finset Nat) (tid : Nat) (c : MConn)
    (hok : ∀ v, c.uuid = some v → (alookup nm v).isSome)
    (hus : t.uuid_set = some S) :
    (fanOutConn nm t tid c).isSome := by
  unfold fanOutConn
  rcases hcu : c.uuid with _ | v
  · simp
  · have hv := hok v hcu
    rcases halo : alookup nm v with _ | nt
    · rw [halo] at hv
      simp at hv
    · simp only [halo]
      cases nt with
      | master => simp
      | admin => simp
      | client => by_cases hcc : c.cid = t.conn <;> simp [hcc]
      | storage =>
        simp only [hus]
        by_cases hvS : v ∈ S <;> simp [hvS]

theorem alookup_eq_none {β : Type} :
    ∀ (l : List (Nat × β)) (k : Nat), k ∉ l.map Prod.fst →
    alookup l k = none := by
  intro l
  induction l with
  | nil => intro k _; rfl
  | cons p rest ih =>
    intro k hk
    simp only [List.map_cons, List.mem_cons] at hk
    push_neg at hk
    simp only [alookup, List.find?]
    rw [show (decide (p.1 = k)) = false from
      decide_eq_false fun h => hk.1 h.symm]
    exact ih k hk.2

theorem alookup_aremove_self {β : Type} :
    ∀ (l : List (Nat × β)) (k : Nat), (l.map Prod.fst).Nodup →
    alookup (aremove l k) k = none := by
  intro l
  induction l with
  | nil => intro k _; rfl
  | cons p rest ih =>
    intro k hnd
    simp only [List.map_cons, List.nodup_cons] at hnd
    by_cases hp : p.1 = k
    · rw [aremove, if_pos hp]
      exact alookup_eq_none rest k (hp ▸ hnd.1)
    · rw [aremove, if_neg hp]
      simp only [alookup, List.find?]
      rw [show (decide (p.1 = k)) = false by simp [hp]]
      exact ih k hnd.2

theorem mem_keys_aset {β : Type} :
    ∀ (l : List (Nat × β)) (k : Nat) (v : β) (x : Nat),
    x ∈ (aset l k v).map Prod.fst → x ∈ l.map Prod.fst ∨ x = k := by
  intro l
  induction l with
  | nil =>
    intro k v x hx
    simp [aset] at hx
    exact Or.inr hx
  | cons p rest ih =>
    intro k v x hx
    by_cases hp : p.1 = k
    · rw [aset, if_pos hp] at hx
      simp only [List.map_cons, List.mem_cons] at hx ⊢
      rcases hx with rfl | hx
      · exact Or.inr rfl
      · exact Or.inl (Or.inr hx)
    · rw [aset, if_neg hp] at hx
      simp only [List.map_cons, List.mem_cons] at hx ⊢
      rcases hx with rfl | hx
      · exact Or.inl (Or.inl rfl)
      · rcases ih k v x hx with h | h
        · exact Or.inl (Or.inr h)
        · exact Or.inr h

theorem nodupKeys_aset {β : Type} :
    ∀ (l : List (Nat × β)) (k : Nat) (v : β), (l.map Prod.fst).Nodup →
    ((aset l k v).map Prod.fst).Nodup := by
  intro l
  induction l with
  | nil => intro k v _; simp [aset]
  | cons p rest ih =>
    intro k v hnd
    simp only [List.map_cons, List.nodup_cons] at hnd
    by_cases hp : p.1 = k
    · rw [aset, if_pos hp]
      simp only [List.map_cons, List.nodup_cons]
      exact ⟨hp ▸ hnd.1, hnd.2⟩
    · rw [aset, if_neg hp]
      simp only [List.map_cons, List.nodup_cons]
      refine ⟨?_, ih k v hnd.2⟩
      intro hmem
      rcases mem_keys_aset rest k v p.1 hmem with h | h
      · exact hnd.1 h
      · exact hp h

theorem runNotify_after (tid : Nat) :
    ∀ (rs : List Nat) (app : MasterApp), tid ≤ app.ltid →
    (∀ r ∈ rs, alookup app.nm r = some NodeType.storage) →
    alookup app.finishing_transaction_dict tid = none →
    runNotifyLocked app tid rs = some (app, []) := by
  intro rs
  induction rs with
  | nil => intro app _ _ _; rfl
  | cons r rest ih =>
    intro app h1 h2 h5
    have hstep : handleNotifyInformationLocked app (some r) tid =
        some (app, []) := by
      simp only [handleNotifyInformationLocked,
        h2 r (List.mem_cons_self r rest), h5]
      rw [if_neg (by simp), if_neg (not_lt.mpr h1)]
    have hrest := ih app h1 (fun x hx => h2 x (List.mem_cons_of_mem r hx)) h5
    simp only [runNotifyLocked, hstep, hrest, List.nil_append]

theorem runNotify_inv (tid : Nat) (S : Finset Nat) :
    ∀ (rs : List Nat) (app : MasterApp) (t : FinishingTxn),
    tid ≤ app.ltid →
    (∀ r ∈ rs, alookup app.nm r = some NodeType.storage) →
    (∀ c ∈ app.conns, ∀ v, c.uuid = some v → (alookup app.nm v).isSome) →
    ((app.finishing_transaction_dict.map Prod.fst).Nodup) →
    alookup app.finishing_transaction_dict tid = some t →
    t.uuid_set = some S →
    t.locked_uuid_set ⊆ S →
    t.locked_uuid_set ≠ S →
    ∃ app' ps, runNotifyLocked app tid rs = some (app', ps) ∧
      app'.nm = app.nm ∧ app'.conns = app.conns ∧
      (if S ⊆ t.locked_uuid_set ∪ rs.toFinset then
        (alookup app'.finishing_transaction_dict tid = none ∧
         ∃ pss, omap (fanOutConn app.nm t tid) app.conns = some pss ∧
           ps = pss.flatten)
       else
        (ps = [] ∧
         ∃ t'', alookup app'.finishing_transaction_dict tid = some t'' ∧
           t''.locked_uuid_set =
             t.locked_uuid_set ∪ (S ∩ rs.toFinset))) := by
  intro rs
  induction rs with
  | nil =>
    intro app t h1 h2 h3 h4 h5 h6 h7 h8
    refine ⟨app, [], rfl, rfl, rfl, ?_⟩
    rw [if_neg ?hc]
    case hc =>
      intro hsub
      apply h8
      apply Finset.Subset.antisymm h7
      simpa using hsub
    exact ⟨rfl, t, h5, by simp⟩
  | cons r rest ih =>
    intro app t h1 h2 h3 h4 h5 h6 h7 h8
    have hr : alookup app.nm r = some NodeType.storage :=
      h2 r (List.mem_cons_self r rest)
    have h2rest : ∀ x ∈ rest, alookup app.nm x = some NodeType.storage :=
      fun x hx => h2 x (List.mem_cons_of_mem r hx)
    by_cases hrS : r ∈ S
    · by_cases hall : S = insert r t.locked_uuid_set
      · -- this report completes the expected set: fan-out fires
        obtain ⟨pss, hpss⟩ := omap_isSome
          (fanOutConn app.nm
            { t with locked_uuid_set := insert r t.locked_uuid_set } tid)
          app.conns
          (fun c hc => fanOutConn_isSome app.nm _ S tid c
            (fun v hv => h3 c hc v hv) h6)
        have hpss2 := hpss
        rw [h6] at hpss2
        have hstep : handleNotifyInformationLocked app (some r) tid =
            some ({ app with finishing_transaction_dict := aremove app.finishing_transaction_dict tid }, pss.flatten) := by
          simp only [handleNotifyInformationLocked, hr, h5,
            FinishingTxn.addLockedUUID, h6]
          rw [if_neg (by simp), if_neg (not_lt.mpr h1), if_pos hrS]
          simp only [FinishingTxn.allLocked, h6]
          rw [if_pos (by simp [hall] :
            (decide (S = insert r t.locked_uuid_set)) = true)]
          rw [hpss2]
        have hafter := runNotify_after tid rest
          ({ app with finishing_transaction_dict := aremove app.finishing_transaction_dict tid })
          h1 h2rest (alookup_aremove_self _ tid h4)
        refine ⟨({ app with finishing_transaction_dict := aremove app.finishing_transaction_dict tid }), pss.flatten, ?_, rfl, rfl, ?_⟩
        · simp only [runNotifyLocked, hstep, hafter, List.append_nil]
        · have hcond : S ⊆ t.locked_uuid_set ∪ (r :: rest).toFinset := by
            rw [hall]
            intro x hx
            rcases Finset.mem_insert.mp hx with rfl | hx'
            · simp [List.toFinset_cons]
            · exact Finset.mem_union_left _ hx'
          rw [if_pos hcond]
          refine ⟨alookup_aremove_self _ tid h4, pss, ?_, rfl⟩
          have hcg : omap (fanOutConn app.nm t tid) app.conns =
              omap (fanOutConn app.nm
                { t with locked_uuid_set := insert r t.locked_uuid_set } tid)
                app.conns :=
            omap_congr _ _ app.conns fun c _ =>
              (fanOutConn_locked app.nm t (insert r t.locked_uuid_set) tid
                c).symm
          rw [hcg]
          exact hpss
      · -- expected UUID, but others still missing
        have hstep : handleNotifyInformationLocked app (some r) tid =
            some ({ app with finishing_transaction_dict := aset app.finishing_transaction_dict tid ({ t with locked_uuid_set := insert r t.locked_uuid_set }) }, []) := by
          simp only [handleNotifyInformationLocked, hr, h5,
            FinishingTxn.addLockedUUID, h6]
          rw [if_neg (by simp), if_neg (not_lt.mpr h1), if_pos hrS]
          simp only [FinishingTxn.allLocked, h6]
          rw [if_neg (by simpa using hall)]
        obtain ⟨app', ps', hrun, hnm', hconns', hcond'⟩ :=
          ih ({ app with finishing_transaction_dict := aset app.finishing_transaction_dict tid ({ t with locked_uuid_set := insert r t.locked_uuid_set }) })
            ({ t with locked_uuid_set := insert r t.locked_uuid_set })
            h1 h2rest h3
            (nodupKeys_aset _ tid _ h4)
            (alookup_aset_self _ tid _)
            h6
            (Finset.insert_subset_iff.mpr ⟨hrS, h7⟩)
            (fun he => hall he.symm)
        have hsets : insert r t.locked_uuid_set ∪ rest.toFinset =
            t.locked_uuid_set ∪ (r :: rest).toFinset := by
          ext x
          simp only [Finset.mem_union, Finset.mem_insert, List.toFinset_cons]
          tauto
        have hsets2 : insert r t.locked_uuid_set ∪ (S ∩ rest.toFinset) =
            t.locked_uuid_set ∪ (S ∩ (r :: rest).toFinset) := by
          ext x
          by_cases hx : x = r
          · subst hx
            simp [List.toFinset_cons, hrS]
          · simp [List.toFinset_cons, hx]
        refine ⟨app', ps', ?_, hnm', hconns', ?_⟩
        · simp only [runNotifyLocked, hstep, hrun, List.nil_append]
        · by_cases hsub : S ⊆ t.locked_uuid_set ∪ (r :: rest).toFinset
          · rw [if_pos hsub]
            rw [if_pos (show S ⊆ insert r t.locked_uuid_set ∪ rest.toFinset by
              rw [hsets]; exact hsub)] at hcond'
            obtain ⟨hnone, pss, homap, hps⟩ := hcond'
            refine ⟨hnone, pss, ?_, hps⟩
            have hcg : omap (fanOutConn app.nm t tid) app.conns =
                omap (fanOutConn app.nm
                  { t with locked_uuid_set := insert r t.locked_uuid_set }
                  tid) app.conns :=
              omap_congr _ _ app.conns fun c _ =>
                (fanOutConn_locked app.nm t (insert r t.locked_uuid_set) tid
                  c).symm
            rw [hcg]
            exact homap
          · rw [if_neg hsub]
            rw [if_neg (show ¬ S ⊆ insert r t.locked_uuid_set ∪ rest.toFinset
              by rw [hsets]; exact hsub)] at hcond'
            obtain ⟨hps, t'', hlt'', hlock''⟩ := hcond'
            exact ⟨hps, t'', hlt'', by rw [hlock'']; exact hsets2⟩
    · -- an unexpected UUID reports: nothing changes except a dict rewrite
      have hstep : handleNotifyInformationLocked app (some r) tid =
          some ({ app with finishing_transaction_dict := aset app.finishing_transaction_dict tid t }, []) := by
        simp only [handleNotifyInformationLocked, hr, h5,
          FinishingTxn.addLockedUUID, h6]
        rw [if_neg (by simp), if_neg (not_lt.mpr h1), if_neg hrS]
        simp only [FinishingTxn.allLocked, h6]
        rw [if_neg (by simpa using fun he => h8 he.symm)]
      obtain ⟨app', ps', hrun, hnm', hconns', hcond'⟩ :=
        ih ({ app with finishing_transaction_dict := aset app.finishing_transaction_dict tid t }) t
          h1 h2rest h3
          (nodupKeys_aset _ tid _ h4)
          (alookup_aset_self _ tid _)
          h6 h7 h8
      have hiff : (S ⊆ t.locked_uuid_set ∪ (r :: rest).toFinset) ↔
          (S ⊆ t.locked_uuid_set ∪ rest.toFinset) := by
        constructor
        · intro h x hx
          rcases Finset.mem_union.mp (h hx) with h' | h'
          · exact Finset.mem_union_left _ h'
          · rw [List.toFinset_cons] at h'
            rcases Finset.mem_insert.mp h' with rfl | h''
            · exact absurd hx hrS
            · exact Finset.mem_union_right _ h''
        · intro h x hx
          rcases Finset.mem_union.mp (h hx) with h' | h'
          · exact Finset.mem_union_left _ h'
          · refine Finset.mem_union_right _ ?_
            rw [List.toFinset_cons]
            exact Finset.mem_insert_of_mem h'
      have hsets2 : S ∩ (r :: rest).toFinset = S ∩ rest.toFinset := by
        ext x
        simp only [Finset.mem_inter, List.toFinset_cons, Finset.mem_insert]
        constructor
        · rintro ⟨hxS, rfl | hxr⟩
          · exact absurd hxS hrS
          · exact ⟨hxS, hxr⟩
        · rintro ⟨hxS, hxr⟩
          exact ⟨hxS, Or.inr hxr⟩
      refine ⟨app', ps', ?_, hnm', hconns', ?_⟩
      · simp only [runNotifyLocked, hstep, hrun, List.nil_append]
      · by_cases hsub : S ⊆ t.locked_uuid_set ∪ (r :: rest).toFinset
        · rw [if_pos hsub]
          rw [if_pos (hiff.mp hsub)] at hcond'
          obtain ⟨hnone, pss, homap, hps⟩ := hcond'
          exact ⟨hnone, pss, homap, hps⟩
        · rw [if_neg hsub]
          rw [if_neg (fun hh => hsub (hiff.mpr hh))] at hcond'
          obtain ⟨hps, t'', hlt'', hlock''⟩ := hcond'
          exact ⟨hps, t'', hlt'', by rw [hlock'', hsets2]⟩

theorem fanOut_mem (nm : List (Nat × NodeType)) (conns : List MConn)
    (t : FinishingTxn) (tid : Nat) (S : Finset Nat)
    (pss : List (List MPacket))
    (homap : omap (fanOutConn nm t tid) conns = some pss)
    (hus : t.uuid_set = some S) :
    (∀ c ∈ conns, ∀ v, c.uuid = some v →
       alookup nm v = some NodeType.client → c.cid = t.conn →
       MPacket.transactionFinished c.cid t.msg_id tid ∈ pss.flatten) ∧
    (∀ c ∈ conns, ∀ v, c.uuid = some v →
       alookup nm v = some NodeType.client → c.cid ≠ t.conn →
       MPacket.invalidateObjects c.cid t.oid_list tid ∈ pss.flatten) ∧
    (∀ c ∈ conns, ∀ v, c.uuid = some v →
       alookup nm v = some NodeType.storage → v ∈ S →
       MPacket.unlockInformation c.cid tid ∈ pss.flatten) := by
  refine ⟨?_, ?_, ?_⟩
  · intro c hc v hv hcl hcid
    refine omap_mem_flatten _ conns pss homap c hc
      [MPacket.transactionFinished c.cid t.msg_id tid] ?_ _
      (List.mem_singleton_self _)
    simp only [fanOutConn, hv, hcl, if_pos hcid]
  · intro c hc v hv hcl hcid
    refine omap_mem_flatten _ conns pss homap c hc
      [MPacket.invalidateObjects c.cid t.oid_list tid] ?_ _
      (List.mem_singleton_self _)
    simp only [fanOutConn, hv, hcl, if_neg hcid]
  · intro c hc v hv hst hvS
    refine omap_mem_flatten _ conns pss homap c hc
      [MPacket.unlockInformation c.cid tid] ?_ _
      (List.mem_singleton_self _)
    simp only [fanOutConn, hv, hst, hus, if_pos hvS]

/-- C1: replaying `AnswerInformationLocked(tid)` reports from storage
connections against a fresh transaction record, the master queues
`AnswerTransactionFinished(tid)` on the initiator's connection iff every
expected UUID has reported; when it does, it also queues
`InvalidateObjects` on every other client connection and
`NotifyUnlockInformation` on the expected storages' connections and
removes the record; after any strict subset of the expected UUIDs has
reported, no finish answer has been queued. -/
theorem claim_C1_lock_fanout (app : MasterApp) (tid : Nat)
    (t : FinishingTxn) (S : Finset Nat) (rs : List Nat) (cinit : MConn)
    (uinit : Nat)
    (h1 : tid ≤ app.ltid)
    (h2 : ∀ r ∈ rs, alookup app.nm r = some NodeType.storage)
    (h3 : ∀ c ∈ app.conns, ∀ v, c.uuid = some v →
        (alookup app.nm v).isSome)
    (h4 : (app.finishing_transaction_dict.map Prod.fst).Nodup)
    (h5 : alookup app.finishing_transaction_dict tid = some t)
    (h6 : t.uuid_set = some S)
    (h7 : t.locked_uuid_set = ∅)
    (h8 : S.Nonempty)
    (hc1 : cinit ∈ app.conns) (hc2 : cinit.cid = t.conn)
    (hc3 : cinit.uuid = some uinit)
    (hc4 : alookup app.nm uinit = some NodeType.client) :
    ∃ app' ps, runNotifyLocked app tid rs = some (app', ps) ∧
      ((MPacket.transactionFinished t.conn t.msg_id tid ∈ ps) ↔
        S ⊆ rs.toFinset) ∧
      (S ⊆ rs.toFinset →
        alookup app'.finishing_transaction_dict tid = none ∧
        (∀ c ∈ app.conns, ∀ v, c.uuid = some v →
           alookup app.nm v = some NodeType.client → c.cid ≠ t.conn →
           MPacket.invalidateObjects c.cid t.oid_list tid ∈ ps) ∧
        (∀ c ∈ app.conns, ∀ v, c.uuid = some v →
           alookup app.nm v = some NodeType.storage → v ∈ S →
           MPacket.unlockInformation c.cid tid ∈ ps)) ∧
      (rs.toFinset ⊂ S →
        MPacket.transactionFinished t.conn t.msg_id tid ∉ ps) := by
  obtain ⟨app', ps, hrun, hnm', hconns', hcond⟩ :=
    runNotify_inv tid S rs app t h1 h2 h3 h4 h5 h6
      (by rw [h7]; exact Finset.empty_subset S)
      (by
        rw [h7]
        exact fun he => (Finset.nonempty_iff_ne_empty.mp h8) he.symm)
  rw [h7, Finset.empty_union] at hcond
  by_cases hsub : S ⊆ rs.toFinset
  · rw [if_pos hsub] at hcond
    obtain ⟨hnone, pss, homap, hps⟩ := hcond
    have hmem := fanOut_mem app.nm app.conns t tid S pss homap h6
    refine ⟨app', ps, hrun, ?_, ?_, ?_⟩
    · constructor
      · intro _
        exact hsub
      · intro _
        rw [hps]
        have hfin := hmem.1 cinit hc1 uinit hc3 hc4 hc2
        rwa [hc2] at hfin
    · intro _
      refine ⟨hnone, ?_, ?_⟩
      · intro c hc v hv hcl hne
        rw [hps]
        exact hmem.2.1 c hc v hv hcl hne
      · intro c hc v hv hst hvS
        rw [hps]
        exact hmem.2.2 c hc v hv hst hvS
    · intro hss
      exact absurd hsub hss.not_subset
  · rw [if_neg hsub] at hcond
    obtain ⟨hps, t'', hlt'', hlock''⟩ := hcond
    refine ⟨app', ps, hrun, ?_, ?_, ?_⟩
    · constructor
      · intro hfin
        rw [hps] at hfin
        simp at hfin
      · intro hs
        exact absurd hs hsub
    · intro hs
      exact absurd hs hsub
    · intro _
      rw [hps]
      simp

/-- Witness for C1 at a concrete master: one expected storage reports,
and the finish answer is queued. -/
theorem claim_C1_witness :
    ({10} : Finset Nat) ⊆ ([10] : List Nat).toFinset ∧
    ∃ app' ps, runNotifyLocked wApp 5 [10] = some (app', ps) ∧
      MPacket.transactionFinished wTxn.conn wTxn.msg_id 5 ∈ ps := by
  refine ⟨by decide, ?_⟩
  obtain ⟨app', ps, hrun, hiff, -, -⟩ :=
    claim_C1_lock_fanout wApp 5 wTxn {10} [10] ⟨1, some 20⟩ 20
      (by decide) (by decide) (by decide) (by decide) (by decide) rfl rfl
      (by decide) (by decide) rfl rfl (by decide)
  exact ⟨app', ps, hrun, hiff.mpr (by decide)⟩

end NeoSpec
